import Mathlib

/-!
# IL2X native core library: `String.cpp`

A shallow embedding of `src/IL2XCoreLibNative/String.cpp` and the properties of
its two functions, `get_Length` and `FastAllocateString`.

The embedding follows the C++ abstract machine on a 64-bit little-endian target
(8-byte pointers, 64-bit `size_t`):

* a call either returns a value or has undefined behaviour (`Outcome`);
* signed 32-bit addition that leaves the `int32` range is undefined;
* `size_t` arithmetic is taken modulo `2 ^ 64`;
* memory is a map from addresses to bytes together with the list of blocks the
  heap has handed out and the list of byte ranges written so far; a write through
  a pointer to an object is undefined unless it stays inside that object's block;
* the general-purpose heap behind `malloc` is a parameter (`Allocator`).
-/

namespace IL2X

/-! ## Outcomes of a call -/

/-- The ways a step of the C++ abstract machine can be undefined. -/
inductive Fault where
  | signedOverflow
  | nullPointer
  | outOfBounds
  deriving DecidableEq

/-- A call returns a value, or its behaviour is undefined. -/
inductive Outcome (α : Type) where
  | returns (value : α)
  | undefined (fault : Fault)

/-- Sequencing: the second step runs only when the first one returned. -/
def Outcome.bind {α β : Type} (x : Outcome α) (k : α → Outcome β) : Outcome β :=
  match x with
  | .returns a => k a
  | .undefined f => .undefined f

/-! ## Scalar types and the target -/

/-- Modelled from the spec: `IL2X_CoreLib_System_Int32` is declared in
`System_String.hpp`, which is not part of the sources; the spec fixes the length
field as a 32-bit signed integer, so its size is 4 bytes. -/
def sizeof_Int32 : Nat := 4

/-- Modelled from the spec: `IL2X_CoreLib_System_Char` is declared in
`System_String.hpp`, which is not part of the sources; the spec fixes the
character unit at 2 bytes. -/
def sizeof_Char : Nat := 2

/-- Size of `void*` on the 64-bit target. -/
def sizeof_pointer : Nat := 8

/-- Number of values of `size_t` on the 64-bit target. -/
def SIZE_MODULUS : Nat := 2 ^ 64

/-- Smallest value of a 32-bit signed integer. -/
def INT32_MIN : Int := -2147483648

/-- Largest value of a 32-bit signed integer. -/
def INT32_MAX : Int := 2147483647

/-- The values an `IL2X_CoreLib_System_Int32` argument can take. -/
def isInt32 (v : Int) : Prop := INT32_MIN ≤ v ∧ v ≤ INT32_MAX

instance (v : Int) : Decidable (isInt32 v) := by
  unfold isInt32; infer_instance

/-- Signed 32-bit addition: undefined when the exact sum is not representable. -/
def addInt32 (a b : Int) : Outcome Int :=
  if INT32_MIN ≤ a + b ∧ a + b ≤ INT32_MAX then .returns (a + b)
  else .undefined .signedOverflow

/-- Conversion of a signed integer to `size_t` (value modulo `2 ^ 64`). -/
def toSizeT (v : Int) : Nat := (v % (SIZE_MODULUS : Int)).toNat

/-- Multiplication in `size_t`. -/
def mulSizeT (a b : Nat) : Nat := (a * b) % SIZE_MODULUS

/-- Addition in `size_t`. -/
def addSizeT (a b : Nat) : Nat := (a + b) % SIZE_MODULUS

/-! ## Layout of `struct StringInstance` -/

/-- A struct member: its size and its alignment in bytes. -/
structure Field where
  size : Nat
  align : Nat

/-- Round an offset up to a multiple of an alignment. -/
def alignUp (off a : Nat) : Nat := (off + (a - 1)) / a * a

/-- Offsets of the members of a struct, laid out in declaration order, each at
the next offset that satisfies its alignment. -/
def fieldOffsets : Nat → List Field → List Nat
  | _, [] => []
  | off, f :: fs => alignUp off f.align :: fieldOffsets (alignUp off f.align + f.size) fs

/-- Offset of the first byte after the last member. -/
def fieldsEnd : Nat → List Field → Nat
  | off, [] => off
  | off, f :: fs => fieldsEnd (alignUp off f.align + f.size) fs

/-- Alignment of a struct: the largest alignment among its members. -/
def structAlign (fs : List Field) : Nat := fs.foldl (fun m f => max m f.align) 1

/-- Size of a struct: the end of its members rounded up to its alignment. -/
def structSize (fs : List Field) : Nat := alignUp (fieldsEnd 0 fs) (structAlign fs)

/-- The members of `struct StringInstance`:
`void* runtimeType; Int32 f__stringLength; Char f__firstChar;`. -/
def StringInstance : List Field :=
  [⟨sizeof_pointer, sizeof_pointer⟩, ⟨sizeof_Int32, sizeof_Int32⟩, ⟨sizeof_Char, sizeof_Char⟩]

/-- The value of `sizeof(StringInstance)`. -/
def sizeof_StringInstance : Nat := structSize StringInstance

/-- Offset of `runtimeType` in `StringInstance`. -/
def offsetof_runtimeType : Nat := (fieldOffsets 0 StringInstance).getD 0 0

/-- Offset of `f__stringLength` in `StringInstance`. -/
def offsetof_f__stringLength : Nat := (fieldOffsets 0 StringInstance).getD 1 0

/-- Offset of `f__firstChar` in `StringInstance`. -/
def offsetof_f__firstChar : Nat := (fieldOffsets 0 StringInstance).getD 2 0

/-- Modelled from the spec: the class `IL2X_CoreLib_System_String` is declared in
`System_String.hpp`, which is not part of the sources; by the spec's layout
schema its length field sits where `StringInstance` has `f__stringLength`. -/
def offsetof_String_f__stringLength : Nat := offsetof_f__stringLength

/-! ## Memory and the heap -/

/-- A region handed out by the heap: base address and size in bytes. -/
structure Block where
  base : Nat
  size : Nat
  deriving DecidableEq

/-- The memory state: the blocks handed out so far, the byte at each address, and
the byte ranges written so far (most recent first). -/
structure Heap where
  live : List Block
  mem : Nat → Nat
  writes : List Block

/-- The general-purpose heap behind `malloc`: given the blocks already handed out
and a byte count it answers with the address of a new block, or with 0 (the null
pointer) when it cannot serve the request. -/
structure Allocator where
  pick : List Block → Nat → Nat

/-- The null pointer. -/
def NULL : Nat := 0

/-- The bytes `a, ..., a + n - 1` lie inside one handed-out block. This is the
check for a read through a pointer that the caller supplies, whose block is not
known to the callee. -/
def Heap.accessible (h : Heap) (a n : Nat) : Bool :=
  h.live.any (fun b => decide (b.base ≤ a ∧ a + n ≤ b.base + b.size))

/-- The block of the object that starts at `p`: the most recently handed-out block
with base `p`. -/
def Heap.blockAt (h : Heap) (p : Nat) : Option Block :=
  h.live.find? (fun b => decide (b.base = p))

/-- The `n` bytes at offset `off` of the object that starts at `p` lie inside the
block of that object. This is the check for an access through a pointer derived
from `p`: bytes of any other block do not count. -/
def Heap.inObject (h : Heap) (p off n : Nat) : Bool :=
  match h.blockAt p with
  | some b => decide (off + n ≤ b.size)
  | none => false

/-- The call `malloc(n)`: the new block is recorded as handed out; its bytes are
whatever memory held there (indeterminate). -/
def malloc (A : Allocator) (h : Heap) (n : Nat) : Nat × Heap :=
  if A.pick h.live n = NULL then (NULL, h)
  else (A.pick h.live n,
    Heap.mk (Block.mk (A.pick h.live n) n :: h.live) h.mem h.writes)

/-- The call `memset(s, c, n)`: writes the byte `c` to `s, ..., s + n - 1`, which
must be bytes of the object that starts at `s`. -/
def memset (h : Heap) (s c n : Nat) : Outcome Heap :=
  if s = NULL then .undefined .nullPointer
  else if h.inObject s 0 n then
    .returns (Heap.mk h.live (fun a => if s ≤ a ∧ a < s + n then c % 256 else h.mem a)
      (Block.mk s n :: h.writes))
  else .undefined .outOfBounds

/-- The 32-bit pattern of a signed integer (two's complement). -/
def encodeInt32 (v : Int) : Nat := (v % 4294967296).toNat

/-- The signed integer of a 32-bit pattern (two's complement). -/
def decodeInt32 (w : Nat) : Int :=
  if w % 4294967296 < 2147483648 then (w % 4294967296 : Nat) else (w % 4294967296 : Nat) - 4294967296

/-- Byte number `i` of a word, least significant first. -/
def byteOf (w i : Nat) : Nat := w / 256 ^ i % 256

/-- The little-endian value of the `n` bytes starting at `a`. -/
def readBytes (h : Heap) (a : Nat) : Nat → Nat
  | 0 => 0
  | n + 1 => h.mem a % 256 + 256 * readBytes h (a + 1) n

/-- Store of a 32-bit signed integer into the member at offset `off` of the object
that starts at `obj` (`obj->member = v`): the four bytes must be bytes of that
object. -/
def storeInt32 (h : Heap) (obj off : Nat) (v : Int) : Outcome Heap :=
  if obj = NULL then .undefined .nullPointer
  else if h.inObject obj off sizeof_Int32 then
    .returns (Heap.mk h.live
      (fun x => if obj + off ≤ x ∧ x < obj + off + sizeof_Int32 then
        byteOf (encodeInt32 v) (x - (obj + off)) else h.mem x)
      (Block.mk (obj + off) sizeof_Int32 :: h.writes))
  else .undefined .outOfBounds

/-- Load of a 32-bit signed integer from address `a`, reached through a pointer
that the caller supplies: the four bytes must lie inside one handed-out block. -/
def loadInt32 (h : Heap) (a : Nat) : Outcome Int :=
  if h.accessible a sizeof_Int32 then .returns (decodeInt32 (readBytes h a sizeof_Int32))
  else .undefined .outOfBounds

/-! ## The functions of `String.cpp` -/

/-- The method `IL2X_CoreLib_System_String::get_Length`:
`return f__stringLength;` on the object at address `this`. The memory state is
passed through so that its effect on memory can be stated. -/
def get_Length (h : Heap) (this : Nat) : Outcome (Int × Heap) :=
  (loadInt32 h (this + offsetof_String_f__stringLength)).bind fun v => .returns (v, h)

/-- The initialiser of the local `sizeLength` in `FastAllocateString`:
`sizeof(StringInstance) + (p_length + 2) * sizeof(IL2X_CoreLib_System_Char)`.
The sum `p_length + 2` is computed in `int32`, then converted to `size_t` for the
product and the outer sum. -/
def sizeLength (p_length : Int) : Outcome Nat :=
  (addInt32 p_length 2).bind fun s =>
    .returns (addSizeT sizeof_StringInstance (mulSizeT (toSizeT s) sizeof_Char))

/-- The function `IL2X_CoreLib_System_String::FastAllocateString`: computes
`sizeLength`, calls `malloc`, zero-fills with `memset`, stores `p_length` in
`f__stringLength` and returns the buffer. -/
def FastAllocateString (A : Allocator) (h : Heap) (p_length : Int) : Outcome (Nat × Heap) :=
  (sizeLength p_length).bind fun n =>
    let buffer := (malloc A h n).1
    (memset (malloc A h n).2 buffer 0 n).bind fun h2 =>
      let inst := buffer
      (storeInt32 h2 inst offsetof_f__stringLength p_length).bind fun h3 =>
        .returns (buffer, h3)

/-! ## Environment used to exercise the code -/

/-- A heap that serves requests from a fixed arena `[16, limit)`: the new block
starts 16-byte aligned past every block handed out so far. -/
def bumpAllocator (limit : Nat) : Allocator :=
  ⟨fun live n =>
    if alignUp (live.foldr (fun b m => max (b.base + b.size) m) 16) 16 + n ≤ limit then
      alignUp (live.foldr (fun b m => max (b.base + b.size) m) 16) 16
    else NULL⟩

/-- A heap that never serves a request (exhausted). -/
def exhaustedAllocator : Allocator := ⟨fun _ _ => NULL⟩

/-- A memory state with no block handed out and every byte holding `0xAA`. -/
def freshHeap : Heap := ⟨[], fun _ => 170, []⟩

/-- The heap hands out only non-null blocks that are disjoint from every block
handed out before. -/
def Allocator.Sound (A : Allocator) : Prop :=
  ∀ live n, A.pick live n ≠ NULL →
    ∀ b ∈ live, A.pick live n + n ≤ b.base ∨ b.base + b.size ≤ A.pick live n

/-- An external writer (type-descriptor system and code generator) overwrites the
type-identity slot and the first `units` character units of the instance at `p`
with the bytes given by `w`. -/
def externalWrite (h : Heap) (p units : Nat) (w : Nat → Nat) : Heap :=
  Heap.mk h.live (fun a =>
    if (p + offsetof_runtimeType ≤ a ∧ a < p + offsetof_runtimeType + sizeof_pointer) ∨
       (p + offsetof_f__firstChar ≤ a ∧ a < p + offsetof_f__firstChar + units * sizeof_Char)
    then w a % 256 else h.mem a)
    (Block.mk (p + offsetof_f__firstChar) (units * sizeof_Char) ::
      Block.mk (p + offsetof_runtimeType) sizeof_pointer :: h.writes)

/-- The memory state `FastAllocateString` leaves behind when it returns the block
`[p, p + n)`: the block is recorded, its bytes are zero except for the four bytes
of `f__stringLength`, which hold the pattern of `v`; all other bytes are kept. The
writes are the zero-fill of the block followed by the store of the length. -/
def stamped (h : Heap) (p n : Nat) (v : Int) : Heap :=
  Heap.mk (Block.mk p n :: h.live) (fun x =>
    if p + offsetof_f__stringLength ≤ x ∧ x < p + offsetof_f__stringLength + sizeof_Int32 then
      byteOf (encodeInt32 v) (x - (p + offsetof_f__stringLength))
    else if p ≤ x ∧ x < p + n then 0 % 256 else h.mem x)
    (Block.mk (p + offsetof_f__stringLength) sizeof_Int32 :: Block.mk p n :: h.writes)

/-! ## Layout facts -/

theorem sizeof_StringInstance_eq : sizeof_StringInstance = 16 := by decide

theorem offsetof_runtimeType_eq : offsetof_runtimeType = 0 := by decide

theorem offsetof_f__stringLength_eq : offsetof_f__stringLength = 8 := by decide

theorem offsetof_f__firstChar_eq : offsetof_f__firstChar = 12 := by decide

theorem offsetof_String_f__stringLength_eq : offsetof_String_f__stringLength = 8 := by decide

/-! ## Arithmetic of `sizeLength` -/

theorem sizeLength_of_le (L : Int) (hlo : INT32_MIN ≤ L) (hhi : L ≤ 2147483645) :
    sizeLength L = .returns ((2 * L + 20) % 18446744073709551616).toNat := by
  have h1 : INT32_MIN ≤ L + 2 ∧ L + 2 ≤ INT32_MAX := by
    unfold INT32_MIN at *; unfold INT32_MAX; omega
  unfold sizeLength addInt32
  rw [if_pos h1]
  simp only [Outcome.bind, sizeof_StringInstance_eq, addSizeT, mulSizeT, toSizeT, SIZE_MODULUS,
    sizeof_Char]
  congr 1
  unfold INT32_MIN at hlo
  norm_num
  omega

theorem sizeLength_nonneg (L : Int) (hlo : 0 ≤ L) (hhi : L ≤ 2147483645) :
    sizeLength L = .returns (sizeof_StringInstance + (L.toNat + 2) * sizeof_Char) := by
  rw [sizeLength_of_le L (by unfold INT32_MIN; omega) hhi, sizeof_StringInstance_eq, sizeof_Char]
  congr 1
  omega

theorem sizeLength_overflow (L : Int) (hlo : 2147483645 < L) :
    sizeLength L = .undefined .signedOverflow := by
  have h1 : ¬ (INT32_MIN ≤ L + 2 ∧ L + 2 ≤ INT32_MAX) := by
    unfold INT32_MIN INT32_MAX; omega
  unfold sizeLength addInt32
  rw [if_neg h1]
  rfl

/-! ## Encoding of the length field -/

theorem decode_encodeInt32 (v : Int) (hv : isInt32 v) : decodeInt32 (encodeInt32 v) = v := by
  unfold isInt32 INT32_MIN INT32_MAX at hv
  unfold decodeInt32 encodeInt32
  split <;> omega

theorem encodeInt32_lt (v : Int) : encodeInt32 v < 4294967296 := by
  unfold encodeInt32; omega

theorem bytes_of_word (w : Nat) (hw : w < 4294967296) :
    byteOf w 0 % 256 + 256 * (byteOf w 1 % 256 + 256 * (byteOf w 2 % 256 +
      256 * (byteOf w 3 % 256 + 256 * 0))) = w := by
  unfold byteOf
  norm_num
  omega

/-! ## Behaviour of `FastAllocateString` -/

theorem accessible_cons_self (live : List Block) (m : Nat → Nat) (ws : List Block)
    (p n a k : Nat) (h1 : p ≤ a) (h2 : a + k ≤ p + n) :
    (Heap.mk (Block.mk p n :: live) m ws).accessible a k = true := by
  simp [Heap.accessible, h1, h2]

theorem inObject_cons_self (live : List Block) (m : Nat → Nat) (ws : List Block)
    (p n off k : Nat) :
    (Heap.mk (Block.mk p n :: live) m ws).inObject p off k = decide (off + k ≤ n) := by
  simp [Heap.inObject, Heap.blockAt]

/-- When the size is computed, the heap serves the request and the block holds the
length field, the call returns the block in the `stamped` state. -/
theorem FastAllocateString_returns (A : Allocator) (h : Heap) (L : Int) (n : Nat)
    (hsize : sizeLength L = .returns n) (hp : A.pick h.live n ≠ NULL)
    (hn : offsetof_f__stringLength + sizeof_Int32 ≤ n) :
    FastAllocateString A h L = .returns (A.pick h.live n, stamped h (A.pick h.live n) n L) := by
  unfold FastAllocateString
  rw [hsize]
  simp only [Outcome.bind, malloc, if_neg hp, memset, storeInt32, inObject_cons_self,
    Nat.zero_add, le_refl, decide_True, if_true, hn]
  rfl

/-- When the heap does not serve the request, the zero-fill goes through the null
pointer and the call is undefined. -/
theorem FastAllocateString_null (A : Allocator) (h : Heap) (L : Int) (n : Nat)
    (hsize : sizeLength L = .returns n) (hp : A.pick h.live n = NULL) :
    malloc A h n = (NULL, h) ∧
    memset (malloc A h n).2 (malloc A h n).1 0 n = .undefined .nullPointer ∧
    FastAllocateString A h L = .undefined .nullPointer := by
  have hm : malloc A h n = (NULL, h) := by
    unfold malloc
    rw [if_pos hp]
  have hz : memset (malloc A h n).2 (malloc A h n).1 0 n = .undefined .nullPointer := by
    rw [hm]
    unfold memset
    rw [if_pos rfl]
  refine ⟨hm, hz, ?_⟩
  unfold FastAllocateString
  rw [hsize]
  simp only [Outcome.bind, hz]

/-- When the heap serves a request too short to hold the length field, the store of
the length leaves the block and the call is undefined. -/
theorem FastAllocateString_short (A : Allocator) (h : Heap) (L : Int) (n : Nat)
    (hsize : sizeLength L = .returns n) (hp : A.pick h.live n ≠ NULL)
    (hn : n < offsetof_f__stringLength + sizeof_Int32) :
    FastAllocateString A h L = .undefined .outOfBounds := by
  have hn' : ¬ (offsetof_f__stringLength + sizeof_Int32 ≤ n) := by omega
  unfold FastAllocateString
  rw [hsize]
  simp only [Outcome.bind, malloc, if_neg hp, memset, storeInt32, inObject_cons_self,
    Nat.zero_add, le_refl, decide_True, if_true, hn', decide_False]
  rfl

/-- Every return of the call comes from a served request whose block holds the
length field, and leaves the `stamped` state. -/
theorem FastAllocateString_inv (A : Allocator) (h : Heap) (L : Int) (p : Nat) (h' : Heap)
    (hret : FastAllocateString A h L = .returns (p, h')) :
    ∃ n, sizeLength L = .returns n ∧ A.pick h.live n = p ∧ p ≠ NULL ∧
      offsetof_f__stringLength + sizeof_Int32 ≤ n ∧
      h' = stamped h p n L ∧
      h'.accessible (p + offsetof_f__stringLength) sizeof_Int32 = true := by
  cases hs : sizeLength L with
  | undefined f =>
    unfold FastAllocateString at hret
    rw [hs] at hret
    simp [Outcome.bind] at hret
  | returns n =>
    by_cases hp : A.pick h.live n = NULL
    · rw [(FastAllocateString_null A h L n hs hp).2.2] at hret
      cases hret
    · by_cases hn : offsetof_f__stringLength + sizeof_Int32 ≤ n
      · rw [FastAllocateString_returns A h L n hs hp hn] at hret
        simp only [Outcome.returns.injEq, Prod.mk.injEq] at hret
        obtain ⟨hp1, hh⟩ := hret
        subst hp1
        refine ⟨n, rfl, rfl, hp, hn, hh.symm, ?_⟩
        rw [← hh]
        exact accessible_cons_self _ _ _ _ _ _ _ (Nat.le_add_right _ _) (by omega)
      · rw [FastAllocateString_short A h L n hs hp (by omega)] at hret
        cases hret

theorem readBytes_stamped (h : Heap) (p n : Nat) (v : Int) :
    readBytes (stamped h p n v) (p + offsetof_f__stringLength) sizeof_Int32 = encodeInt32 v := by
  have hb := bytes_of_word (encodeInt32 v) (encodeInt32_lt v)
  simp only [sizeof_Int32, readBytes, stamped, offsetof_f__stringLength_eq]
  have e0 : p + 8 - (p + 8) = 0 := by omega
  have e1 : p + 8 + 1 - (p + 8) = 1 := by omega
  have e2 : p + 8 + 1 + 1 - (p + 8) = 2 := by omega
  have e3 : p + 8 + 1 + 1 + 1 - (p + 8) = 3 := by omega
  rw [if_pos (by omega), if_pos (by omega), if_pos (by omega), if_pos (by omega), e0, e1, e2, e3]
  exact hb

/-- Reading the length of a returned instance gives the requested value. -/
theorem get_Length_of_returned (A : Allocator) (h : Heap) (L : Int) (p : Nat) (h' : Heap)
    (hL : isInt32 L) (hret : FastAllocateString A h L = .returns (p, h')) :
    get_Length h' p = .returns (L, h') := by
  obtain ⟨n, _, _, _, _, hh, hacc⟩ := FastAllocateString_inv A h L p h' hret
  unfold get_Length loadInt32
  rw [offsetof_String_f__stringLength_eq, ← offsetof_f__stringLength_eq, hacc]
  simp only [if_true, Outcome.bind]
  rw [hh, readBytes_stamped, decode_encodeInt32 L hL]

theorem stamped_mem_zero (h : Heap) (p n a : Nat) (v : Int) (h1 : p ≤ a) (h2 : a < p + n)
    (h3 : ¬ (p + offsetof_f__stringLength ≤ a ∧ a < p + offsetof_f__stringLength + sizeof_Int32)) :
    (stamped h p n v).mem a = 0 := by
  simp only [stamped]
  rw [if_neg h3, if_pos ⟨h1, h2⟩]

theorem stamped_mem_frame (h : Heap) (p n a : Nat) (v : Int) (h1 : ¬ (p ≤ a ∧ a < p + n))
    (h3 : ¬ (p + offsetof_f__stringLength ≤ a ∧ a < p + offsetof_f__stringLength + sizeof_Int32)) :
    (stamped h p n v).mem a = h.mem a := by
  simp only [stamped]
  rw [if_neg h3, if_neg h1]

/-- A returned block for a non-negative length has the exact size
`sizeof(StringInstance) + (L + 2) * sizeof(Char)`. -/
theorem size_of_returned (A : Allocator) (h : Heap) (L : Int) (p : Nat) (h' : Heap)
    (h0 : 0 ≤ L) (hret : FastAllocateString A h L = .returns (p, h')) :
    L ≤ 2147483645 ∧ A.pick h.live (sizeof_StringInstance + (L.toNat + 2) * sizeof_Char) = p ∧
      p ≠ NULL ∧ h' = stamped h p (sizeof_StringInstance + (L.toNat + 2) * sizeof_Char) L := by
  obtain ⟨n, hs, hp, hnn, _, hh, _⟩ := FastAllocateString_inv A h L p h' hret
  have hle : L ≤ 2147483645 := by
    by_contra hgt
    rw [sizeLength_overflow L (by omega)] at hs
    cases hs
  rw [sizeLength_nonneg L h0 hle] at hs
  cases hs
  exact ⟨hle, hp, hnn, hh⟩

theorem readBytes_zero (h : Heap) (k a : Nat) (hz : ∀ i, i < k → h.mem (a + i) = 0) :
    readBytes h a k = 0 := by
  induction k generalizing a with
  | zero => rfl
  | succ k ih =>
    have h0 := hz 0 (Nat.succ_pos k)
    have hrest : ∀ i, i < k → h.mem (a + 1 + i) = 0 := fun i hi => by
      have := hz (i + 1) (Nat.succ_lt_succ hi)
      rwa [show a + (i + 1) = a + 1 + i by omega] at this
    simp only [readBytes, ih (a + 1) hrest]
    simp only [Nat.add_zero] at h0
    rw [h0]

theorem le_alignUp_16 (x : Nat) : x ≤ alignUp x 16 := by
  unfold alignUp
  omega

theorem foldr_max_bound (live : List Block) (b : Block) (hb : b ∈ live) :
    b.base + b.size ≤ live.foldr (fun b m => max (b.base + b.size) m) 16 := by
  induction live with
  | nil => cases hb
  | cons c cs ih =>
    simp only [List.foldr_cons]
    rcases List.mem_cons.mp hb with hbc | hbc
    · subst hbc
      exact le_max_left _ _
    · exact le_trans (ih hbc) (le_max_right _ _)

/-- The arena heap hands out blocks past every block handed out before. -/
theorem bumpAllocator_sound (limit : Nat) : (bumpAllocator limit).Sound := by
  intro live n _ b hb
  right
  simp only [bumpAllocator]
  split
  · exact le_trans (foldr_max_bound live b hb) (le_alignUp_16 _)
  · rename_i hc
    simp only [bumpAllocator] at *
    rw [if_neg hc] at *
    contradiction

theorem readBytes_congr (g1 g2 : Heap) (k a : Nat)
    (hagree : ∀ i, i < k → g1.mem (a + i) = g2.mem (a + i)) :
    readBytes g1 a k = readBytes g2 a k := by
  induction k generalizing a with
  | zero => rfl
  | succ k ih =>
    have h0 := hagree 0 (Nat.succ_pos k)
    have hrest : ∀ i, i < k → g1.mem (a + 1 + i) = g2.mem (a + 1 + i) := fun i hi => by
      have := hagree (i + 1) (Nat.succ_lt_succ hi)
      rwa [show a + (i + 1) = a + 1 + i by omega] at this
    simp only [readBytes, ih (a + 1) hrest]
    simp only [Nat.add_zero] at h0
    rw [h0]

/-- The value `get_Length` returns depends only on the handed-out blocks and on the
four bytes of the length field. -/
theorem get_Length_congr (g1 g2 : Heap) (q : Nat) (v : Int) (hlive : g1.live = g2.live)
    (hagree : ∀ a, q + offsetof_String_f__stringLength ≤ a →
      a < q + offsetof_String_f__stringLength + sizeof_Int32 → g1.mem a = g2.mem a)
    (hret : get_Length g1 q = .returns (v, g1)) : get_Length g2 q = .returns (v, g2) := by
  have hacc : g2.accessible (q + offsetof_String_f__stringLength) sizeof_Int32
      = g1.accessible (q + offsetof_String_f__stringLength) sizeof_Int32 := by
    simp only [Heap.accessible, hlive]
  have hread : readBytes g2 (q + offsetof_String_f__stringLength) sizeof_Int32
      = readBytes g1 (q + offsetof_String_f__stringLength) sizeof_Int32 :=
    readBytes_congr g2 g1 _ _ (fun i hi => (hagree _ (by omega) (by omega)).symm)
  unfold get_Length loadInt32 at hret ⊢
  rw [hacc, hread]
  by_cases hc : g1.accessible (q + offsetof_String_f__stringLength) sizeof_Int32 = true
  · simp only [hc, if_true, Outcome.bind, Outcome.returns.injEq, Prod.mk.injEq] at hret ⊢
    exact ⟨hret.1, trivial⟩
  · simp [hc, Outcome.bind] at hret

/-! ## The claims -/

/-- C1 (as amended): for every requested length `L` with `0 ≤ L ≤ 2^31 - 3`, when
the heap serves the request, `FastAllocateString(L)` returns an instance and
`get_Length` on that instance yields exactly `L`. -/
theorem C1_length_of_allocated (A : Allocator) (h : Heap) (L : Int)
    (h0 : 0 ≤ L) (hmax : L ≤ 2147483645)
    (hserved : A.pick h.live (sizeof_StringInstance + (L.toNat + 2) * sizeof_Char) ≠ NULL) :
    ∃ p h', FastAllocateString A h L = .returns (p, h') ∧ get_Length h' p = .returns (L, h') := by
  have hret := FastAllocateString_returns A h L _ (sizeLength_nonneg L h0 hmax) hserved
    (by rw [offsetof_f__stringLength_eq, sizeof_Int32, sizeof_StringInstance_eq, sizeof_Char]; omega)
  exact ⟨_, _, hret, get_Length_of_returned A h L _ _
    (by unfold isInt32 INT32_MIN INT32_MAX; omega) hret⟩

/-- C1, witness: length 5 on a fresh arena. -/
theorem C1_length_of_allocated_witness :
    ∃ p h', FastAllocateString (bumpAllocator 4096) freshHeap 5 = .returns (p, h') ∧
      get_Length h' p = .returns (5, h') :=
  C1_length_of_allocated (bumpAllocator 4096) freshHeap 5 (by decide) (by decide) (by decide)

/-- C1, as stated, fails at `L = 2^31 - 1`: the sum `p_length + 2` overflows the
32-bit signed range, so the call is undefined and returns no instance whose
length could be read. -/
theorem C1_fails_at_int32_max :
    isInt32 2147483647 ∧ (0 : Int) ≤ 2147483647 ∧
    FastAllocateString (bumpAllocator 4096) freshHeap 2147483647 = .undefined .signedOverflow ∧
    ¬ ∃ p h', FastAllocateString (bumpAllocator 4096) freshHeap 2147483647 = .returns (p, h') ∧
      get_Length h' p = .returns (2147483647, h') := by
  have hu : FastAllocateString (bumpAllocator 4096) freshHeap 2147483647
      = .undefined .signedOverflow := by
    unfold FastAllocateString
    rw [sizeLength_overflow 2147483647 (by decide)]
    rfl
  refine ⟨by decide, by decide, hu, ?_⟩
  rintro ⟨p, h', hret, _⟩
  rw [hu] at hret
  cases hret

/-- C2 (as amended): for every requested length `L` with `0 ≤ L ≤ 2^31 - 3`, the sum
`L + 2` stays in the 32-bit signed range and the byte count `sizeLength` handed to
`malloc` is exactly `sizeof(StringInstance) + (L + 2) * 2`, below `2 ^ 64`; every
block the call returns was requested with that byte count and has that size. -/
theorem C2_exact_size (L : Int) (h0 : 0 ≤ L) (hmax : L ≤ 2147483645) :
    addInt32 L 2 = .returns (L + 2) ∧
    sizeLength L = .returns (sizeof_StringInstance + (L.toNat + 2) * sizeof_Char) ∧
    sizeof_Char = 2 ∧
    sizeof_StringInstance + (L.toNat + 2) * sizeof_Char < SIZE_MODULUS ∧
    ∀ A h p h', FastAllocateString A h L = .returns (p, h') →
      A.pick h.live (sizeof_StringInstance + (L.toNat + 2) * sizeof_Char) = p ∧
      h'.live = Block.mk p (sizeof_StringInstance + (L.toNat + 2) * sizeof_Char) :: h.live := by
  refine ⟨?_, sizeLength_nonneg L h0 hmax, rfl, ?_, ?_⟩
  · unfold addInt32
    rw [if_pos (by unfold INT32_MIN INT32_MAX; omega)]
  · rw [sizeof_StringInstance_eq, sizeof_Char]
    unfold SIZE_MODULUS
    omega
  · intro A h p h' hret
    obtain ⟨_, hp, _, hh⟩ := size_of_returned A h L p h' h0 hret
    exact ⟨hp, by rw [hh]; rfl⟩

/-- C2, witness: `L = 5` gives `sizeof(StringInstance) + 14`. -/
theorem C2_exact_size_witness :
    sizeLength 5 = .returns (sizeof_StringInstance + 14) :=
  (C2_exact_size 5 (by decide) (by decide)).2.1

/-- C2, as stated, fails at `L = 2^31 - 1`: `L + 2` overflows the 32-bit signed
range, so the byte count is not the exact integer
`sizeof(StringInstance) + (L + 2) * 2`. -/
theorem C2_fails_at_int32_max :
    isInt32 2147483647 ∧ (0 : Int) ≤ 2147483647 ∧
    addInt32 2147483647 2 = .undefined .signedOverflow ∧
    sizeLength 2147483647 = .undefined .signedOverflow ∧
    sizeLength 2147483647 ≠ .returns (sizeof_StringInstance + (2147483647 + 2) * sizeof_Char) := by
  have hu := sizeLength_overflow 2147483647 (by decide)
  refine ⟨by decide, by decide, rfl, hu, ?_⟩
  rw [hu]
  intro hc
  cases hc

/-- C3: for every `L ≥ 0`, right after `FastAllocateString(L)` returns the block
`[p, p + n)`, every byte of the block outside the four bytes of the length field is
zero; in particular the `runtimeType` slot is null and every character unit in the
block is zero. Bytes outside the block are unchanged, so the length field is the
only place where the call stores a value that may be non-zero. -/
theorem C3_zero_outside_length (A : Allocator) (h : Heap) (L : Int) (p : Nat) (h' : Heap)
    (h0 : 0 ≤ L) (hret : FastAllocateString A h L = .returns (p, h')) :
    ∃ n, sizeLength L = .returns n ∧ h'.live = Block.mk p n :: h.live ∧
      (∀ a, p ≤ a → a < p + n →
        ¬ (p + offsetof_f__stringLength ≤ a ∧ a < p + offsetof_f__stringLength + sizeof_Int32) →
        h'.mem a = 0) ∧
      readBytes h' (p + offsetof_runtimeType) sizeof_pointer = 0 ∧
      (∀ i, p + offsetof_f__firstChar + (i + 1) * sizeof_Char ≤ p + n →
        readBytes h' (p + offsetof_f__firstChar + i * sizeof_Char) sizeof_Char = 0) ∧
      (∀ a, ¬ (p ≤ a ∧ a < p + n) → h'.mem a = h.mem a) ∧
      (∀ a, h'.mem a ≠ 0 → h'.mem a ≠ h.mem a →
        p + offsetof_f__stringLength ≤ a ∧ a < p + offsetof_f__stringLength + sizeof_Int32) := by
  obtain ⟨hle, _, _, hh⟩ := size_of_returned A h L p h' h0 hret
  refine ⟨_, sizeLength_nonneg L h0 hle, by rw [hh]; rfl, ?_, ?_, ?_, ?_, ?_⟩
  · intro a h1 h2 h3
    rw [hh]
    exact stamped_mem_zero h p _ a L h1 h2 h3
  · apply readBytes_zero
    intro i hi
    rw [hh]
    apply stamped_mem_zero
    · omega
    · rw [sizeof_pointer] at hi
      rw [offsetof_runtimeType_eq, sizeof_StringInstance_eq]
      omega
    · rw [sizeof_pointer] at hi
      rw [offsetof_runtimeType_eq, offsetof_f__stringLength_eq]
      omega
  · intro i hi
    apply readBytes_zero
    intro j hj
    rw [hh]
    rw [sizeof_Char] at hj hi ⊢
    rw [offsetof_f__firstChar_eq] at hi ⊢
    apply stamped_mem_zero
    · omega
    · omega
    · rw [offsetof_f__stringLength_eq, sizeof_Int32]
      omega
  · intro a ha
    rw [hh]
    apply stamped_mem_frame _ _ _ _ _ ha
    rw [offsetof_f__stringLength_eq, sizeof_Int32]
    rw [sizeof_StringInstance_eq, sizeof_Char] at ha
    omega
  · intro a hnz hne
    by_contra hout
    by_cases hin : p ≤ a ∧ a < p + (sizeof_StringInstance + (L.toNat + 2) * sizeof_Char)
    · apply hnz
      rw [hh]
      exact stamped_mem_zero h p _ a L hin.1 hin.2 hout
    · apply hne
      rw [hh]
      exact stamped_mem_frame h p _ a L hin hout

/-- C3, witness: length 5 on a fresh arena whose bytes all hold `0xAA`. -/
theorem C3_zero_outside_length_witness :
    ∃ n, sizeLength 5 = .returns n ∧
      (stamped freshHeap 16 30 5).live = Block.mk 16 n :: freshHeap.live ∧
      (∀ a, 16 ≤ a → a < 16 + n →
        ¬ (16 + offsetof_f__stringLength ≤ a ∧ a < 16 + offsetof_f__stringLength + sizeof_Int32) →
        (stamped freshHeap 16 30 5).mem a = 0) ∧
      readBytes (stamped freshHeap 16 30 5) (16 + offsetof_runtimeType) sizeof_pointer = 0 ∧
      (∀ i, 16 + offsetof_f__firstChar + (i + 1) * sizeof_Char ≤ 16 + n →
        readBytes (stamped freshHeap 16 30 5) (16 + offsetof_f__firstChar + i * sizeof_Char)
          sizeof_Char = 0) ∧
      (∀ a, ¬ (16 ≤ a ∧ a < 16 + n) → (stamped freshHeap 16 30 5).mem a = freshHeap.mem a) ∧
      (∀ a, (stamped freshHeap 16 30 5).mem a ≠ 0 →
        (stamped freshHeap 16 30 5).mem a ≠ freshHeap.mem a →
        16 + offsetof_f__stringLength ≤ a ∧ a < 16 + offsetof_f__stringLength + sizeof_Int32) :=
  C3_zero_outside_length (bumpAllocator 4096) freshHeap 5 16 (stamped freshHeap 16 30 5)
    (by decide)
    (FastAllocateString_returns (bumpAllocator 4096) freshHeap 5 30 rfl (by decide) (by decide))

/-- C4 (as amended): for every `L ≥ 0`, in the instance returned by
`FastAllocateString(L)` the character storage starts immediately after the header
(at the offset of `f__firstChar`, which is the pointer size plus the four bytes of
the length field), and the number of bytes from there to the end of the allocated
block is `(L + 2) * 2` plus the `sizeof(StringInstance) - offsetof(f__firstChar)`
bytes that `sizeof(StringInstance)` already counts, that is `(L + 4) * 2`. -/
theorem C4_character_storage (A : Allocator) (h : Heap) (L : Int) (p : Nat) (h' : Heap)
    (h0 : 0 ≤ L) (hret : FastAllocateString A h L = .returns (p, h')) :
    offsetof_f__stringLength = offsetof_runtimeType + sizeof_pointer ∧
    offsetof_f__firstChar = offsetof_f__stringLength + sizeof_Int32 ∧
    ∃ n, sizeLength L = .returns n ∧ h'.live = Block.mk p n :: h.live ∧
      (p + n) - (p + offsetof_f__firstChar) =
        (L.toNat + 2) * sizeof_Char + (sizeof_StringInstance - offsetof_f__firstChar) ∧
      (p + n) - (p + offsetof_f__firstChar) = (L.toNat + 4) * sizeof_Char := by
  obtain ⟨hle, _, _, hh⟩ := size_of_returned A h L p h' h0 hret
  refine ⟨by decide, by decide, _, sizeLength_nonneg L h0 hle, by rw [hh]; rfl, ?_, ?_⟩
  · rw [sizeof_StringInstance_eq, offsetof_f__firstChar_eq, sizeof_Char]
    omega
  · rw [sizeof_StringInstance_eq, offsetof_f__firstChar_eq, sizeof_Char]
    omega

/-- C4, witness: length 5 leaves 18 bytes (9 units) of character storage. -/
theorem C4_character_storage_witness :
    offsetof_f__stringLength = offsetof_runtimeType + sizeof_pointer ∧
    offsetof_f__firstChar = offsetof_f__stringLength + sizeof_Int32 ∧
    ∃ n, sizeLength 5 = .returns n ∧
      (stamped freshHeap 16 30 5).live = Block.mk 16 n :: freshHeap.live ∧
      (16 + n) - (16 + offsetof_f__firstChar) =
        ((5 : Int).toNat + 2) * sizeof_Char + (sizeof_StringInstance - offsetof_f__firstChar) ∧
      (16 + n) - (16 + offsetof_f__firstChar) = ((5 : Int).toNat + 4) * sizeof_Char :=
  C4_character_storage (bumpAllocator 4096) freshHeap 5 16 (stamped freshHeap 16 30 5)
    (by decide)
    (FastAllocateString_returns (bumpAllocator 4096) freshHeap 5 30 rfl (by decide) (by decide))

/-- C4, as stated, fails at `L = 0`: the call returns a block of 20 bytes at
address 16, the character storage starts at offset 12, so 8 bytes (4 units) follow,
not `(0 + 2) * 2 = 4` bytes. -/
theorem C4_fails_at_zero :
    FastAllocateString (bumpAllocator 4096) freshHeap 0
      = .returns (16, stamped freshHeap 16 20 0) ∧
    (stamped freshHeap 16 20 0).live = [Block.mk 16 20] ∧
    (16 + 20) - (16 + offsetof_f__firstChar) = 8 ∧
    (16 + 20) - (16 + offsetof_f__firstChar) ≠ (0 + 2) * sizeof_Char :=
  ⟨FastAllocateString_returns (bumpAllocator 4096) freshHeap 0 20 rfl (by decide) (by decide),
    rfl, by decide, by decide⟩

/-- C5: for every `L ≥ 0` (including `L = 0`), the two character units at indices
`L` and `L + 1` of the character storage lie inside the block returned by
`FastAllocateString(L)` and both read zero right after the call, so the `L` payload
units are followed by a zero terminator; for `L = 0` the instance has length 0 and
its units 0 and 1 are zero. -/
theorem C5_trailing_units (A : Allocator) (h : Heap) (L : Int) (p : Nat) (h' : Heap)
    (hL : isInt32 L) (h0 : 0 ≤ L) (hret : FastAllocateString A h L = .returns (p, h')) :
    ∃ n, sizeLength L = .returns n ∧ h'.live = Block.mk p n :: h.live ∧
      p + offsetof_f__firstChar + (L.toNat + 2) * sizeof_Char ≤ p + n ∧
      h'.accessible (p + offsetof_f__firstChar + L.toNat * sizeof_Char) (2 * sizeof_Char) = true ∧
      readBytes h' (p + offsetof_f__firstChar + L.toNat * sizeof_Char) sizeof_Char = 0 ∧
      readBytes h' (p + offsetof_f__firstChar + (L.toNat + 1) * sizeof_Char) sizeof_Char = 0 ∧
      (L = 0 → get_Length h' p = .returns (0, h') ∧
        readBytes h' (p + offsetof_f__firstChar) sizeof_Char = 0 ∧
        readBytes h' (p + offsetof_f__firstChar + sizeof_Char) sizeof_Char = 0) := by
  obtain ⟨hle, _, _, hh⟩ := size_of_returned A h L p h' h0 hret
  have hlen := get_Length_of_returned A h L p h' hL hret
  have hunit : ∀ i, i ≤ L.toNat + 1 →
      readBytes h' (p + offsetof_f__firstChar + i * sizeof_Char) sizeof_Char = 0 := by
    intro i hi
    apply readBytes_zero
    intro j hj
    rw [hh]
    rw [sizeof_Char] at hj ⊢
    rw [offsetof_f__firstChar_eq]
    apply stamped_mem_zero
    · omega
    · rw [sizeof_StringInstance_eq]
      omega
    · rw [offsetof_f__stringLength_eq, sizeof_Int32]
      omega
  refine ⟨_, sizeLength_nonneg L h0 hle, by rw [hh]; rfl, ?_, ?_, hunit _ (by omega),
    hunit _ (le_refl _), ?_⟩
  · rw [sizeof_StringInstance_eq, offsetof_f__firstChar_eq, sizeof_Char]
    omega
  · rw [hh]
    apply accessible_cons_self
    · omega
    · rw [sizeof_StringInstance_eq, offsetof_f__firstChar_eq, sizeof_Char]
      omega
  · intro hz
    subst hz
    refine ⟨hlen, ?_, ?_⟩
    · have := hunit 0 (by omega)
      simpa using this
    · have := hunit 1 (by omega)
      simpa using this

/-- C5, witness: the empty string on a fresh arena whose bytes all hold `0xAA`. -/
theorem C5_trailing_units_witness :
    ∃ n, sizeLength 0 = .returns n ∧
      (stamped freshHeap 16 20 0).live = Block.mk 16 n :: freshHeap.live ∧
      16 + offsetof_f__firstChar + ((0 : Int).toNat + 2) * sizeof_Char ≤ 16 + n ∧
      (stamped freshHeap 16 20 0).accessible
        (16 + offsetof_f__firstChar + (0 : Int).toNat * sizeof_Char) (2 * sizeof_Char) = true ∧
      readBytes (stamped freshHeap 16 20 0)
        (16 + offsetof_f__firstChar + (0 : Int).toNat * sizeof_Char) sizeof_Char = 0 ∧
      readBytes (stamped freshHeap 16 20 0)
        (16 + offsetof_f__firstChar + ((0 : Int).toNat + 1) * sizeof_Char) sizeof_Char = 0 ∧
      ((0 : Int) = 0 →
        get_Length (stamped freshHeap 16 20 0) 16 = .returns (0, stamped freshHeap 16 20 0) ∧
        readBytes (stamped freshHeap 16 20 0) (16 + offsetof_f__firstChar) sizeof_Char = 0 ∧
        readBytes (stamped freshHeap 16 20 0) (16 + offsetof_f__firstChar + sizeof_Char)
          sizeof_Char = 0) :=
  C5_trailing_units (bumpAllocator 4096) freshHeap 0 16 (stamped freshHeap 16 20 0)
    (by decide) (by decide)
    (FastAllocateString_returns (bumpAllocator 4096) freshHeap 0 20 rfl (by decide) (by decide))

/-- C6: `get_Length` is a pure read of the length field. On every instance whose
length field is accessible it returns the stored field and leaves memory as it
was; its result is the same in any two memory states that agree on the handed-out
blocks and on the four bytes of the field. In particular, for an instance returned
by `FastAllocateString(L)` with `L ≥ 0`, it returns `L` both right after the call
and after an external writer has overwritten the type-identity slot and the
character units `0 .. L-1` with arbitrary bytes. -/
theorem C6_get_Length_pure (A : Allocator) (h : Heap) (L : Int) (p : Nat) (h' : Heap)
    (w : Nat → Nat) (hL : isInt32 L) (_h0 : 0 ≤ L)
    (hret : FastAllocateString A h L = .returns (p, h')) :
    (∀ g q, g.accessible (q + offsetof_String_f__stringLength) sizeof_Int32 = true →
      get_Length g q =
        .returns (decodeInt32 (readBytes g (q + offsetof_String_f__stringLength) sizeof_Int32), g)) ∧
    (∀ g q v g', get_Length g q = .returns (v, g') → g' = g) ∧
    (∀ g1 g2 q v, g1.live = g2.live →
      (∀ a, q + offsetof_String_f__stringLength ≤ a →
        a < q + offsetof_String_f__stringLength + sizeof_Int32 → g1.mem a = g2.mem a) →
      get_Length g1 q = .returns (v, g1) → get_Length g2 q = .returns (v, g2)) ∧
    get_Length h' p = .returns (L, h') ∧
    get_Length (externalWrite h' p L.toNat w) p = .returns (L, externalWrite h' p L.toNat w) := by
  have hlen := get_Length_of_returned A h L p h' hL hret
  refine ⟨?_, ?_, get_Length_congr, hlen, ?_⟩
  · intro g q hacc
    unfold get_Length loadInt32
    rw [hacc]
    rfl
  · intro g q v g' hg
    unfold get_Length loadInt32 at hg
    by_cases hc : g.accessible (q + offsetof_String_f__stringLength) sizeof_Int32 = true
    · simp only [hc, if_true, Outcome.bind, Outcome.returns.injEq, Prod.mk.injEq] at hg
      exact hg.2.symm
    · simp [hc, Outcome.bind] at hg
  · refine get_Length_congr h' (externalWrite h' p L.toNat w) p L rfl ?_ hlen
    intro a h1 h2
    rw [offsetof_String_f__stringLength_eq] at h1 h2
    rw [sizeof_Int32] at h2
    simp only [externalWrite, offsetof_runtimeType_eq, offsetof_f__firstChar_eq, sizeof_pointer]
    rw [if_neg (by omega)]

/-- C6, witness: after allocating length 5 on a fresh arena and overwriting the
type-identity slot and the five payload units with `0xFF` bytes, the length still
reads 5. -/
theorem C6_get_Length_pure_witness :
    get_Length (externalWrite (stamped freshHeap 16 30 5) 16 (5 : Int).toNat (fun _ => 255)) 16
      = .returns (5, externalWrite (stamped freshHeap 16 30 5) 16 (5 : Int).toNat (fun _ => 255)) :=
  (C6_get_Length_pure (bumpAllocator 4096) freshHeap 5 16 (stamped freshHeap 16 30 5)
    (fun _ => 255) (by decide) (by decide)
    (FastAllocateString_returns (bumpAllocator 4096) freshHeap 5 30 rfl (by decide)
      (by decide))).2.2.2.2

/-- C7 (as amended): for every requested length `L < 0` the size arithmetic of
`FastAllocateString` goes through without any check: it yields the byte count
`(2 * L + 20) mod 2 ^ 64`, which is smaller than the count for `L = 0`
(`sizeof(StringInstance) + 4`) when `-10 ≤ L`, and a wrapped value of at least
`2 ^ 63` when `L ≤ -11`. No error value is returned. When the heap serves the
request and the block holds the length field (`-4 ≤ L` or `L ≤ -11`) the call
returns the block with the negative `L` in its length field. When the heap serves
the request and `-10 ≤ L ≤ -5`, the block is shorter than the 12 bytes that end
the length field, the store of the length leaves the block and the call is
undefined. When the heap does not serve the request the call is undefined through
the null buffer. Hence every instance the call returns carries `L`. -/
theorem C7_negative_length (A : Allocator) (h : Heap) (L : Int)
    (hlo : INT32_MIN ≤ L) (hneg : L < 0) :
    ∃ n, sizeLength L = .returns n ∧ n = ((2 * L + 20) % 18446744073709551616).toNat ∧
      sizeLength 0 = .returns (sizeof_StringInstance + 4) ∧
      (-10 ≤ L → n < sizeof_StringInstance + 4) ∧
      (L ≤ -11 → 2 ^ 63 ≤ n) ∧
      (A.pick h.live n ≠ NULL → -4 ≤ L ∨ L ≤ -11 →
        ∃ h', FastAllocateString A h L = .returns (A.pick h.live n, h') ∧
          h'.live = Block.mk (A.pick h.live n) n :: h.live ∧
          get_Length h' (A.pick h.live n) = .returns (L, h')) ∧
      (A.pick h.live n ≠ NULL → -10 ≤ L → L ≤ -5 →
        n < offsetof_f__stringLength + sizeof_Int32 ∧
        FastAllocateString A h L = .undefined .outOfBounds) ∧
      (A.pick h.live n = NULL → FastAllocateString A h L = .undefined .nullPointer) ∧
      (∀ p h', FastAllocateString A h L = .returns (p, h') →
        A.pick h.live n = p ∧ p ≠ NULL ∧ (-4 ≤ L ∨ L ≤ -11) ∧
          h'.live = Block.mk p n :: h.live ∧ get_Length h' p = .returns (L, h')) := by
  have hL : isInt32 L := by
    unfold isInt32 INT32_MAX
    exact ⟨hlo, by omega⟩
  have hs := sizeLength_of_le L hlo (by omega)
  unfold INT32_MIN at hlo
  have hfield : offsetof_f__stringLength + sizeof_Int32 = 12 := by decide
  refine ⟨_, hs, rfl, rfl, ?_, ?_, ?_, ?_, ?_, ?_⟩
  · intro h10
    rw [sizeof_StringInstance_eq]
    omega
  · intro h11
    omega
  · intro hp hrange
    have hret := FastAllocateString_returns A h L _ hs hp (by rw [hfield]; omega)
    exact ⟨_, hret, rfl, get_Length_of_returned A h L _ _ hL hret⟩
  · intro hp h10 h5
    have hn : ((2 * L + 20) % 18446744073709551616).toNat
        < offsetof_f__stringLength + sizeof_Int32 := by rw [hfield]; omega
    exact ⟨hn, FastAllocateString_short A h L _ hs hp hn⟩
  · intro hp
    exact (FastAllocateString_null A h L _ hs hp).2.2
  · intro p h' hret
    obtain ⟨n, hs', hp, hnn, hn, hh, _⟩ := FastAllocateString_inv A h L p h' hret
    rw [hs] at hs'
    cases hs'
    rw [hfield] at hn
    exact ⟨hp, hnn, by omega, by rw [hh]; rfl, get_Length_of_returned A h L p h' hL hret⟩

/-- C7, witness: `L = -1` requests 18 bytes, fewer than the 20 of `L = 0`; on a
fresh arena the call returns the block at address 16 and its length reads `-1`. -/
theorem C7_negative_length_witness :
    sizeLength (-1) = .returns 18 ∧
    ∃ h', FastAllocateString (bumpAllocator 4096) freshHeap (-1) = .returns (16, h') ∧
      h'.live = Block.mk 16 18 :: freshHeap.live ∧
      get_Length h' 16 = .returns (-1, h') := by
  obtain ⟨n, hs, hn, _, _, _, hret, _⟩ :=
    C7_negative_length (bumpAllocator 4096) freshHeap (-1) (by decide) (by decide)
  have hn18 : n = 18 := by rw [hn]; decide
  subst hn18
  exact ⟨hs, hret (by decide) (by decide)⟩

/-- C7, as stated, fails at `L = -5`: the call requests 10 bytes, the heap serves
them at address 16, and the store of the length at offsets 8..11 leaves that block,
so the call is undefined and no result is stamped with `-5`. With this length the
call returns on no heap at all. -/
theorem C7_fails_at_minus_five :
    isInt32 (-5) ∧ (-5 : Int) < 0 ∧
    sizeLength (-5) = .returns 10 ∧
    (bumpAllocator 4096).pick freshHeap.live 10 = 16 ∧
    FastAllocateString (bumpAllocator 4096) freshHeap (-5) = .undefined .outOfBounds ∧
    (¬ ∃ p h', FastAllocateString (bumpAllocator 4096) freshHeap (-5) = .returns (p, h') ∧
      get_Length h' p = .returns (-5, h')) ∧
    (∀ A h r, FastAllocateString A h (-5) ≠ .returns r) := by
  have hs : sizeLength (-5) = .returns 10 := rfl
  have hu : FastAllocateString (bumpAllocator 4096) freshHeap (-5) = .undefined .outOfBounds :=
    FastAllocateString_short (bumpAllocator 4096) freshHeap (-5) 10 hs (by decide) (by decide)
  refine ⟨by decide, by decide, hs, by decide, hu, ?_, ?_⟩
  · rintro ⟨p, h', hret, _⟩
    rw [hu] at hret
    cases hret
  · rintro A h ⟨p, h'⟩ hret
    obtain ⟨n, hs', _, _, hn, _⟩ := FastAllocateString_inv A h (-5) p h' hret
    rw [hs] at hs'
    cases hs'
    revert hn
    decide

/-- C8: `FastAllocateString` has no fallible path for heap exhaustion. For every
`L`, when the heap cannot serve the request of the call, `malloc` yields the null
pointer, the zero-fill is executed through it, and the call is undefined: it never
returns, neither an instance nor a null or error result. -/
theorem C8_allocation_failure (A : Allocator) (h : Heap) (L : Int)
    (hfail : ∀ n, sizeLength L = .returns n → A.pick h.live n = NULL) :
    (∃ f, FastAllocateString A h L = .undefined f) ∧
    (∀ r, FastAllocateString A h L ≠ .returns r) ∧
    (∀ n, sizeLength L = .returns n →
      malloc A h n = (NULL, h) ∧
      memset (malloc A h n).2 (malloc A h n).1 0 n = .undefined .nullPointer ∧
      FastAllocateString A h L = .undefined .nullPointer) := by
  have key : ∀ n, sizeLength L = .returns n →
      malloc A h n = (NULL, h) ∧
      memset (malloc A h n).2 (malloc A h n).1 0 n = .undefined .nullPointer ∧
      FastAllocateString A h L = .undefined .nullPointer := by
    intro n hs
    have hm : malloc A h n = (NULL, h) := by
      unfold malloc
      rw [if_pos (hfail n hs)]
    have hz : memset (malloc A h n).2 (malloc A h n).1 0 n = .undefined .nullPointer := by
      rw [hm]
      unfold memset
      rw [if_pos rfl]
    refine ⟨hm, hz, ?_⟩
    unfold FastAllocateString
    rw [hs]
    simp only [Outcome.bind, hz]
  have hund : ∃ f, FastAllocateString A h L = .undefined f := by
    cases hs : sizeLength L with
    | returns n => exact ⟨_, (key n hs).2.2⟩
    | undefined f =>
      refine ⟨f, ?_⟩
      unfold FastAllocateString
      rw [hs]
      rfl
  refine ⟨hund, ?_, key⟩
  intro r hr
  obtain ⟨f, hf⟩ := hund
  rw [hf] at hr
  cases hr

/-- C8, witness: length 5 on an exhausted heap. -/
theorem C8_allocation_failure_witness :
    FastAllocateString exhaustedAllocator freshHeap 5 = .undefined .nullPointer :=
  ((C8_allocation_failure exhaustedAllocator freshHeap 5 (fun _ _ => rfl)).2.2 30 rfl).2.2

/-- C9: for every pair of non-negative lengths `L1`, `L2`, when the heap hands out
only blocks disjoint from the blocks it handed out before, two successive returning
calls `FastAllocateString(L1)` and `FastAllocateString(L2)` return two distinct
addresses and the two byte regions share no address; the first block is still
recorded as handed out after the second call. -/
theorem C9_distinct_regions (A : Allocator) (h : Heap) (L1 L2 : Int) (p1 p2 : Nat)
    (h1 h2 : Heap) (hsound : A.Sound) (h01 : 0 ≤ L1) (h02 : 0 ≤ L2)
    (hret1 : FastAllocateString A h L1 = .returns (p1, h1))
    (hret2 : FastAllocateString A h1 L2 = .returns (p2, h2)) :
    p1 ≠ p2 ∧
    ∃ n1 n2, sizeLength L1 = .returns n1 ∧ sizeLength L2 = .returns n2 ∧
      h2.live = Block.mk p2 n2 :: Block.mk p1 n1 :: h.live ∧
      (p2 + n2 ≤ p1 ∨ p1 + n1 ≤ p2) ∧
      ∀ a, ¬ ((p1 ≤ a ∧ a < p1 + n1) ∧ (p2 ≤ a ∧ a < p2 + n2)) := by
  obtain ⟨hle1, _, _, hh1⟩ := size_of_returned A h L1 p1 h1 h01 hret1
  obtain ⟨hle2, hp2, hnn2, hh2⟩ := size_of_returned A h1 L2 p2 h2 h02 hret2
  have hlive1 : h1.live
      = Block.mk p1 (sizeof_StringInstance + (L1.toNat + 2) * sizeof_Char) :: h.live := by
    rw [hh1]; rfl
  have hdis := hsound h1.live (sizeof_StringInstance + (L2.toNat + 2) * sizeof_Char)
    (by rw [hp2]; exact hnn2)
    (Block.mk p1 (sizeof_StringInstance + (L1.toNat + 2) * sizeof_Char))
    (by rw [hlive1]; exact List.mem_cons_self _ _)
  rw [hp2] at hdis
  simp only at hdis
  have hpos1 : 0 < sizeof_StringInstance + (L1.toNat + 2) * sizeof_Char := by
    rw [sizeof_StringInstance_eq]; omega
  have hpos2 : 0 < sizeof_StringInstance + (L2.toNat + 2) * sizeof_Char := by
    rw [sizeof_StringInstance_eq]; omega
  refine ⟨by omega, _, _, sizeLength_nonneg L1 h01 hle1, sizeLength_nonneg L2 h02 hle2, ?_,
    hdis, ?_⟩
  · rw [hh2, ← hlive1]; rfl
  · intro a
    omega

/-- C9, witness: two successive allocations of length 5 from a fresh arena land at
addresses 16 and 48. -/
theorem C9_distinct_regions_witness :
    (16 : Nat) ≠ 48 ∧
    ∃ n1 n2, sizeLength 5 = .returns n1 ∧ sizeLength 5 = .returns n2 ∧
      (stamped (stamped freshHeap 16 30 5) 48 30 5).live
        = Block.mk 48 n2 :: Block.mk 16 n1 :: freshHeap.live ∧
      (48 + n2 ≤ 16 ∨ 16 + n1 ≤ 48) ∧
      ∀ a, ¬ ((16 ≤ a ∧ a < 16 + n1) ∧ (48 ≤ a ∧ a < 48 + n2)) :=
  C9_distinct_regions (bumpAllocator 4096) freshHeap 5 5 16 48 (stamped freshHeap 16 30 5)
    (stamped (stamped freshHeap 16 30 5) 48 30 5) (bumpAllocator_sound 4096)
    (by decide) (by decide)
    (FastAllocateString_returns (bumpAllocator 4096) freshHeap 5 30 rfl (by decide) (by decide))
    (FastAllocateString_returns (bumpAllocator 4096) (stamped freshHeap 16 30 5) 5 30 rfl
      (by decide) (by decide))

/-- C10: under the precondition `0 ≤ L ≤ 2^31 - 3`, when the heap serves the
request, no step of `FastAllocateString(L)` leaves its range. The 32-bit signed sum
`L + 2` is exact and neither the product nor the sum of the `size_t` computation
reaches `2 ^ 64`. The call returns; the block it recorded has exactly the computed
size; the writes it made are exactly two: the zero-fill of exactly the bytes of
that block, then the four bytes of the length field, which lie inside the block.
In the state it returns every byte of the block outside the length field is zero,
every byte outside the block is as before, and the length field reads `L`. -/
theorem C10_in_range (A : Allocator) (h : Heap) (L : Int)
    (h0 : 0 ≤ L) (hmax : L ≤ 2147483645)
    (hserved : A.pick h.live (sizeof_StringInstance + (L.toNat + 2) * sizeof_Char) ≠ NULL) :
    addInt32 L 2 = .returns (L + 2) ∧
    toSizeT (L + 2) * sizeof_Char < SIZE_MODULUS ∧
    sizeof_StringInstance + toSizeT (L + 2) * sizeof_Char < SIZE_MODULUS ∧
    sizeLength L = .returns (sizeof_StringInstance + (L.toNat + 2) * sizeof_Char) ∧
    ∃ p n h', p = A.pick h.live n ∧ n = sizeof_StringInstance + (L.toNat + 2) * sizeof_Char ∧
      FastAllocateString A h L = .returns (p, h') ∧
      h'.live = Block.mk p n :: h.live ∧
      h'.writes = Block.mk (p + offsetof_f__stringLength) sizeof_Int32 :: Block.mk p n :: h.writes ∧
      (p ≤ p + offsetof_f__stringLength ∧
        p + offsetof_f__stringLength + sizeof_Int32 ≤ p + n) ∧
      h'.inObject p 0 n = true ∧
      h'.inObject p offsetof_f__stringLength sizeof_Int32 = true ∧
      (∀ a, p ≤ a → a < p + n →
        ¬ (p + offsetof_f__stringLength ≤ a ∧ a < p + offsetof_f__stringLength + sizeof_Int32) →
        h'.mem a = 0) ∧
      (∀ a, ¬ (p ≤ a ∧ a < p + n) → h'.mem a = h.mem a) ∧
      get_Length h' p = .returns (L, h') := by
  have hs := sizeLength_nonneg L h0 hmax
  have hn : offsetof_f__stringLength + sizeof_Int32
      ≤ sizeof_StringInstance + (L.toNat + 2) * sizeof_Char := by
    rw [offsetof_f__stringLength_eq, sizeof_Int32, sizeof_StringInstance_eq, sizeof_Char]; omega
  have hret := FastAllocateString_returns A h L _ hs hserved hn
  have hL : isInt32 L := by unfold isInt32 INT32_MIN INT32_MAX; omega
  refine ⟨?_, ?_, ?_, hs, _, _, _, rfl, rfl, hret, rfl, rfl,
    ⟨Nat.le_add_right _ _, by omega⟩, ?_, ?_, ?_, ?_, get_Length_of_returned A h L _ _ hL hret⟩
  · unfold addInt32
    rw [if_pos (by unfold INT32_MIN INT32_MAX; omega)]
  · unfold toSizeT SIZE_MODULUS
    rw [sizeof_Char]
    norm_num
    omega
  · unfold toSizeT SIZE_MODULUS
    rw [sizeof_Char, sizeof_StringInstance_eq]
    norm_num
    omega
  · simp only [stamped, inObject_cons_self, Nat.zero_add, le_refl, decide_True]
  · simp only [stamped, inObject_cons_self, hn, decide_True]
  · intro a h1 h2 h3
    exact stamped_mem_zero h _ _ a L h1 h2 h3
  · intro a ha
    apply stamped_mem_frame _ _ _ _ _ ha
    omega

/-- C10, witness: length 5 on a fresh arena: the call returns the 30-byte block at
address 16 after writing bytes 16..45 and then bytes 24..27. -/
theorem C10_in_range_witness :
    ∃ h', FastAllocateString (bumpAllocator 4096) freshHeap 5 = .returns (16, h') ∧
      h'.live = [Block.mk 16 30] ∧
      h'.writes = [Block.mk 24 4, Block.mk 16 30] ∧
      get_Length h' 16 = .returns (5, h') := by
  obtain ⟨_, _, _, _, p, n, h', hp, hn, hret, hlive, hwrites, _, _, _, _, _, hlen⟩ :=
    C10_in_range (bumpAllocator 4096) freshHeap 5 (by decide) (by decide) (by decide)
  subst hn
  subst hp
  exact ⟨h', hret, hlive, hwrites, hlen⟩

end IL2X
